import Mathlib

/-! Shallow embedding of the Concerto graphical editor prototype
(src/src/App.jsx).

The program is a single React component.  Its state is: the node list, the
edge list, the selected node id (possibly null) and a module-level numeric id
counter.  All state changes happen in synchronous event handlers, so the
component is modelled as a step function on an explicit state record, driven
by an event type covering the handlers onNodeClick, onPaneClick, onDrop,
onConnect, onNameChange, onAddField, onUpdateField and onRemoveField.

JavaScript peculiarities are modelled explicitly:
  - a field is a JS object whose keys (`type`, `name`) may be absent, so both
    are `Option String`;
  - a slot of the `fields` array is a field object, the value `undefined`, or
    an array hole (`Slot`): assigning `a[i] = v` with `i ≥ a.length` pads the
    array with holes, array spread `[...a]` turns holes into `undefined`
    elements, and `Array.prototype.filter` skips holes but visits `undefined`
    elements;
  - object spread `{...x, ...y}` is a shallow merge of top-level keys.
-/

namespace Concerto

/-- A field-object key used by the program (`onUpdateField` is only ever
called with the literal keys 'type' and 'name'). -/
inductive FieldKey
  | type
  | name
deriving DecidableEq, Repr

/-- A JS field object `{type: …, name: …}`; either key may be absent. -/
structure Field where
  type? : Option String
  name? : Option String
deriving DecidableEq, Repr

/-- The empty JS object, as produced by spreading `undefined`. -/
def emptyField : Field := { type? := none, name? := none }

/-- JS object update `{...f, [k]: v}` restricted to the two keys in use. -/
def setKey (f : Field) : FieldKey → String → Field
  | FieldKey.type, v => { f with type? := some v }
  | FieldKey.name, v => { f with name? := some v }

/-- One slot of the JS `fields` array: a field object, the value `undefined`,
or an array hole left by an out-of-bounds index assignment. -/
inductive Slot
  | obj (f : Field)
  | undef
  | hole
deriving DecidableEq, Repr

/-- Array spread `[...a]`: copies the elements; holes become `undefined`. -/
def spreadArr (l : List Slot) : List Slot :=
  l.map fun s =>
    match s with
    | Slot.hole => Slot.undef
    | s => s

/-- Reading `a[i]` in JS: out-of-bounds reads (and holes) give `undefined`. -/
def jsGet (l : List Slot) (i : Nat) : Slot :=
  match l.getD i Slot.hole with
  | Slot.hole => Slot.undef
  | s => s

/-- Object spread `{...s}` of a slot: a field object spreads to itself,
`undefined` (or a hole) spreads to the empty object. -/
def slotSpread : Slot → Field
  | Slot.obj f => f
  | _ => emptyField

/-- JS index assignment `a[i] = v`: in bounds it replaces the element, out of
bounds it grows the array to length `i+1`, padding with holes. -/
def jsSet (l : List Slot) (i : Nat) (v : Slot) : List Slot :=
  if i < l.length then l.set i v
  else l ++ List.replicate (i - l.length) Slot.hole ++ [v]

/-- The `fields.filter((_, i) => i !== idx)` call of onRemoveField, with the
running element position `pos`; JS filter skips holes and visits every other
slot. -/
def filterIdxGo (idx : Nat) : List Slot → Nat → List Slot
  | [], _ => []
  | s :: rest, pos =>
    if s ≠ Slot.hole ∧ pos ≠ idx then s :: filterIdxGo idx rest (pos + 1)
    else filterIdxGo idx rest (pos + 1)

/-- onRemoveField's new field array: filter out the element at index `idx`. -/
def removeFieldFilter (l : List Slot) (idx : Nat) : List Slot :=
  filterIdxGo idx l 0

/-- The default field object appended by onAddField:
`{ type: 'String', name: 'newProp' }`. -/
def newPropField : Field := { type? := some "String", name? := some "newProp" }

/-- Node position (the numeric values are irrelevant to every claim). -/
structure Position where
  x : Int
  y : Int
deriving DecidableEq, Repr

/-- The `data` object of a node: `{label, fields}`. -/
structure NodeData where
  label : String
  fields : List Slot
deriving DecidableEq, Repr

/-- A React-Flow node as built by this program: `{id, type, position, data}`.
The `type` key is the rendering variant (the spec's `kind`). -/
structure Node where
  id : String
  type : String
  position : Position
  data : NodeData
deriving DecidableEq, Repr

/-- An edge; the collaborator-assigned edge id is opaque and omitted. -/
structure Edge where
  source : String
  target : String
deriving DecidableEq, Repr

/-- The `newData` argument of updateNodeData: every call site passes either
`{label: …}` or `{fields: …}`, so it is a record of two optional keys. -/
structure PartialData where
  label? : Option String
  fields? : Option (List Slot)
deriving DecidableEq, Repr

/-- Shallow merge `{...node.data, ...newData}`: a key present in `newData`
replaces the prior value entirely, an absent key leaves it untouched. -/
def mergeData (d : NodeData) (newData : PartialData) : NodeData :=
  { label := newData.label?.getD d.label
    fields := newData.fields?.getD d.fields }

/-- updateNodeData from App.jsx: map over the nodes, shallow-merging
`newData` into the data of every node whose id equals `nodeId?` (the call
sites pass `selectedNodeId`, which may be null, hence `Option String`). -/
def updateNodeData (nds : List Node) (nodeId? : Option String) (newData : PartialData) : List Node :=
  nds.map fun node =>
    if some node.id = nodeId? then { node with data := mergeData node.data newData }
    else node

/-- Modelled from the spec: `addEdge` is imported from the external
`reactflow` package and its code is not under src/; section 4.2 of the spec
says `connect` "appends a new Connection; never rejects, never deduplicates
(duplicate or self-referential connections are permitted)". -/
def addEdge (params : Edge) (eds : List Edge) : List Edge :=
  eds ++ [params]

/-- getId from App.jsx: render the counter as a decimal string, then
post-increment the counter. -/
def getId (c : Nat) : String × Nat :=
  (toString c, c + 1)

/-- The component state: nodes, edges, selectedNodeId and the module-level
id counter (initialised to 2). -/
structure AppState where
  nodes : List Node
  edges : List Edge
  selectedNodeId : Option String
  counter : Nat
deriving DecidableEq, Repr

/-- `nodes.find((n) => n.id === selectedNodeId)` from App.jsx. -/
def selectedNode (s : AppState) : Option Node :=
  s.nodes.find? fun n => some n.id = s.selectedNodeId

/-- The seed node of App.jsx (the single element of `initialNodes`). -/
def seedNode : Node :=
  { id := "1"
    type := "concerto"
    position := { x := 250, y := 100 }
    data :=
      { label := "Person"
        fields :=
          [ Slot.obj { type? := some "String", name? := some "firstName" }
          , Slot.obj { type? := some "String", name? := some "lastName" }
          , Slot.obj { type? := some "Integer", name? := some "age" } ] } }

/-- The seed node list of App.jsx (`initialNodes`). -/
def initialNodes : List Node := [seedNode]

/-- The initial component state: seed node, no edges, nothing selected,
counter at 2. -/
def initialState : AppState :=
  { nodes := initialNodes, edges := [], selectedNodeId := none, counter := 2 }

/-- The interaction events the component handles.  A drop event carries the
`dataTransfer` payload string (empty when no recognised drag payload) and the
already-projected flow position. -/
inductive Event
  | nodeClick (nodeId : String)
  | paneClick
  | drop (payload : String) (position : Position)
  | connect (source target : String)
  | rename (newLabel : String)
  | addField
  | updateField (index : Nat) (key : FieldKey) (value : String)
  | removeField (index : Nat)
deriving DecidableEq, Repr

/-- One synchronous event-handler invocation, translated handler by handler
from App.jsx. -/
def step (s : AppState) (e : Event) : AppState :=
  match e with
  | Event.nodeClick nodeId => { s with selectedNodeId := some nodeId }
  | Event.paneClick => { s with selectedNodeId := none }
  | Event.drop payload position =>
    if payload = "" then s
    else
      let newNode : Node :=
        { id := (getId s.counter).1
          type := "concerto"
          position := position
          data := { label := "New " ++ payload, fields := [] } }
      { s with
        nodes := s.nodes ++ [newNode]
        counter := (getId s.counter).2
        selectedNodeId := some newNode.id }
  | Event.connect source target =>
    { s with edges := addEdge { source := source, target := target } s.edges }
  | Event.rename newLabel =>
    { s with nodes := updateNodeData s.nodes s.selectedNodeId { label? := some newLabel, fields? := none } }
  | Event.addField =>
    match selectedNode s with
    | none => s
    | some sel =>
      let newFields := spreadArr sel.data.fields ++ [Slot.obj newPropField]
      { s with nodes := updateNodeData s.nodes s.selectedNodeId { label? := none, fields? := some newFields } }
  | Event.updateField index key value =>
    match selectedNode s with
    | none => s
    | some sel =>
      let nf := spreadArr sel.data.fields
      let newFields := jsSet nf index (Slot.obj (setKey (slotSpread (jsGet nf index)) key value))
      { s with nodes := updateNodeData s.nodes s.selectedNodeId { label? := none, fields? := some newFields } }
  | Event.removeField index =>
    match selectedNode s with
    | none => s
    | some sel =>
      let newFields := removeFieldFilter sel.data.fields index
      { s with nodes := updateNodeData s.nodes s.selectedNodeId { label? := none, fields? := some newFields } }

/-- Run a sequence of events from a state. -/
def run (s : AppState) (es : List Event) : AppState :=
  es.foldl step s

/-! Concrete helper values used by witness theorems. -/

/-- A concrete node used in witnesses. -/
def wNodeA : Node :=
  { id := "1", type := "concerto", position := { x := 0, y := 0 }
    data := { label := "A", fields := [] } }

/-- A second concrete node used in witnesses. -/
def wNodeB : Node :=
  { id := "2", type := "concerto", position := { x := 1, y := 1 }
    data := { label := "B", fields := [Slot.obj { type? := some "String", name? := some "f" }] } }

/-- A concrete partial-data value used in witnesses. -/
def wPartial : PartialData := { label? := some "C", fields? := none }

/-- The value of wNodeB after shallow-merging wPartial. -/
def wUpdatedB : Node :=
  { wNodeB with data := { label := "C", fields := wNodeB.data.fields } }

/-- A concrete selected state used by witnesses: two nodes, node 2 selected. -/
def wStateSel : AppState :=
  { nodes := [wNodeA, wNodeB], edges := [], selectedNodeId := some "2", counter := 3 }

/-- The expected value of wNodeB after one AddField. -/
def wNodeBAdd1 : Node :=
  { wNodeB with
    data :=
      { label := "B"
        fields := [ Slot.obj { type? := some "String", name? := some "f" }
                  , Slot.obj newPropField ] } }

/-- The expected value of wNodeB after two AddFields. -/
def wNodeBAdd2 : Node :=
  { wNodeB with
    data :=
      { label := "B"
        fields := [ Slot.obj { type? := some "String", name? := some "f" }
                  , Slot.obj newPropField, Slot.obj newPropField ] } }

/-- The pair projection of id and kind of every node, in order. -/
def idKindProj (nds : List Node) : List (String × String) :=
  nds.map fun n => (n.id, n.type)

/-- The decimal digit characters of a natural number, most significant
first; this is what Nat.toDigits 10 computes (proved below). -/
def decChars (n : Nat) : List Char :=
  if _h : n < 10 then [Nat.digitChar n]
  else decChars (n / 10) ++ [Nat.digitChar (n % 10)]
decreasing_by
  exact Nat.div_lt_self (by omega) (by omega)

/-- The numeric value of a digit character. -/
def digitVal (c : Char) : Nat := c.toNat - 48

/-- The usual decimal reading of a character list (the fold String.toNat!
performs). -/
def decValue (l : List Char) : Nat :=
  l.foldl (fun a c => a * 10 + digitVal c) 0

/-- Spec-side definition (section 4.1 reads ids "interpreted as integers"):
the decimal value of an id string. -/
def specIntValue (s : String) : Nat := decValue s.data

/-- The ids handed out by k successive getId calls from counter c. -/
def genIds (c : Nat) : Nat → List String
  | 0 => []
  | k + 1 => (getId c).1 :: genIds (getId c).2 k

/-- Store invariant for id freshness: node ids are pairwise distinct and the
decimal value of every node id is below the counter. -/
def NodesOk (s : AppState) : Prop :=
  (s.nodes.map Node.id).Pairwise (· ≠ ·) ∧ ∀ n ∈ s.nodes, specIntValue n.id < s.counter

/-! Basic lemmas about updateNodeData. -/

/-- A call with a null node id (no selection) changes no node. -/
theorem updateNodeData_none (nds : List Node) (d : PartialData) :
    updateNodeData nds none d = nds := by
  unfold updateNodeData
  conv_rhs => rw [← List.map_id nds]
  apply List.map_congr_left
  intro a _
  simp

/-- The node-id projection is untouched by updateNodeData. -/
theorem map_id_updateNodeData (nds : List Node) (x : Option String) (d : PartialData) :
    (updateNodeData nds x d).map Node.id = nds.map Node.id := by
  unfold updateNodeData
  rw [List.map_map]
  apply List.map_congr_left
  intro a _
  by_cases h : some a.id = x <;> simp [Function.comp, h]

/-- The id-and-kind projection is untouched by updateNodeData. -/
theorem idKindProj_updateNodeData (nds : List Node) (x : Option String) (d : PartialData) :
    idKindProj (updateNodeData nds x d) = idKindProj nds := by
  unfold idKindProj updateNodeData
  rw [List.map_map]
  apply List.map_congr_left
  intro a _
  by_cases h : some a.id = x <;> simp [Function.comp, h]

/-- C1: updateNodeData(x, d) replaces exactly the top-level keys present in d
in node x's data (a key present replaces the prior value entirely, fields
included — no deep merge; a key omitted keeps its prior value), and every
node whose id differs from x is value-equal to its pre-call state; the node
count is also unchanged. -/
theorem updateNodeData_shallow_merge_isolation (nds : List Node) (x : String) (d : PartialData) :
    (updateNodeData nds (some x) d).length = nds.length ∧
    ∀ (i : Nat) (n n' : Node), nds[i]? = some n → (updateNodeData nds (some x) d)[i]? = some n' →
      (n.id ≠ x → n' = n) ∧
      (n.id = x →
        n'.id = n.id ∧ n'.type = n.type ∧ n'.position = n.position ∧
        (∀ l, d.label? = some l → n'.data.label = l) ∧
        (d.label? = none → n'.data.label = n.data.label) ∧
        (∀ fs, d.fields? = some fs → n'.data.fields = fs) ∧
        (d.fields? = none → n'.data.fields = n.data.fields)) := by
  constructor
  · simp [updateNodeData]
  · intro i n n' h1 h2
    rw [updateNodeData, List.getElem?_map, h1, Option.map_some'] at h2
    injection h2 with h2
    constructor
    · intro hne
      rw [if_neg (by simpa using hne)] at h2
      exact h2.symm
    · intro heq
      rw [if_pos (by simpa using heq)] at h2
      subst h2
      refine ⟨rfl, rfl, rfl, ?_, ?_, ?_, ?_⟩
      · intro l hl; simp [mergeData, hl]
      · intro hl; simp [mergeData, hl]
      · intro fs hf; simp [mergeData, hf]
      · intro hf; simp [mergeData, hf]

/-- Witness for C1 at a concrete two-node store. -/
theorem updateNodeData_shallow_merge_isolation_witness :
    (updateNodeData [wNodeA, wNodeB] (some "2") wPartial).length = 2 ∧
    wUpdatedB.data.label = "C" ∧ wUpdatedB.data.fields = wNodeB.data.fields ∧
    wUpdatedB.id = wNodeB.id := by
  have h := updateNodeData_shallow_merge_isolation [wNodeA, wNodeB] "2" wPartial
  have h2 := h.2 1 wNodeB wUpdatedB (by decide) (by decide)
  have h3 := h2.2 (by decide)
  exact ⟨h.1, h3.2.2.2.1 "C" rfl, h3.2.2.2.2.2.2 rfl, h3.1⟩

/-- C2: updateNodeData is total; against a node id matching no node in the
collection it is a silent no-op, returning the collection unchanged. -/
theorem updateNodeData_stale_id_noop (nds : List Node) (x : String) (d : PartialData)
    (h : ∀ n ∈ nds, n.id ≠ x) : updateNodeData nds (some x) d = nds := by
  unfold updateNodeData
  conv_rhs => rw [← List.map_id nds]
  apply List.map_congr_left
  intro a ha
  simp [h a ha]

/-- Witness for C2: an update against id 7, absent from the seed store. -/
theorem updateNodeData_stale_id_noop_witness :
    updateNodeData initialNodes (some "7") wPartial = initialNodes :=
  updateNodeData_stale_id_noop initialNodes "7" wPartial (by decide)

/-- C3: the selection tracker transitions exactly as specified: a node click
selects its payload regardless of prior state (clicking A then B yields
Selected B), a pane click unselects, and a drop with a recognised payload
appends one new node and selects exactly that node's id. -/
theorem selection_transitions (s : AppState) (a b p : String) (pos : Position) :
    (step s (Event.nodeClick a)).selectedNodeId = some a ∧
    (step (step s (Event.nodeClick a)) (Event.nodeClick b)).selectedNodeId = some b ∧
    (step s Event.paneClick).selectedNodeId = none ∧
    (p ≠ "" →
      (step s (Event.drop p pos)).nodes =
        s.nodes ++ [{ id := toString s.counter, type := "concerto", position := pos
                      data := { label := "New " ++ p, fields := [] } }] ∧
      (step s (Event.drop p pos)).selectedNodeId = some (toString s.counter)) := by
  refine ⟨rfl, rfl, rfl, fun hp => ?_⟩
  constructor <;> simp [step, hp, getId]

/-- Witness for C3 at the initial state. -/
theorem selection_transitions_witness :
    (step initialState (Event.nodeClick "1")).selectedNodeId = some "1" ∧
    (step (step initialState (Event.nodeClick "1")) (Event.nodeClick "9")).selectedNodeId = some "9" ∧
    (step initialState Event.paneClick).selectedNodeId = none ∧
    (step initialState (Event.drop "Concept" { x := 0, y := 0 })).selectedNodeId = some "2" := by
  have h := selection_transitions initialState "1" "9" "Concept" { x := 0, y := 0 }
  exact ⟨h.1, h.2.1, h.2.2.1, ((h.2.2.2 (by decide)).2).trans (by decide)⟩

/-- C4: with no current selection, each of the four mutation operations
(Rename, AddField, UpdateField, RemoveField) leaves the whole state — node
collection and edge collection included — unchanged. -/
theorem unselected_mutations_noop (s : AppState) (h : s.selectedNodeId = none)
    (lbl v : String) (i j : Nat) (k : FieldKey) :
    step s (Event.rename lbl) = s ∧ step s Event.addField = s ∧
    step s (Event.updateField i k v) = s ∧ step s (Event.removeField j) = s := by
  obtain ⟨nds, eds, sid, c⟩ := s
  simp only at h
  subst h
  have hsel : selectedNode ⟨nds, eds, none, c⟩ = none := by
    simp [selectedNode]
  refine ⟨?_, ?_, ?_, ?_⟩
  · simp [step, updateNodeData_none]
  · simp only [step]; rw [hsel]
  · simp only [step]; rw [hsel]
  · simp only [step]; rw [hsel]

/-- Witness for C4 at the initial (unselected) state. -/
theorem unselected_mutations_noop_witness :
    step initialState (Event.rename "X") = initialState ∧
    step initialState Event.addField = initialState ∧
    step initialState (Event.updateField 0 FieldKey.name "v") = initialState ∧
    step initialState (Event.removeField 0) = initialState :=
  unselected_mutations_noop initialState rfl "X" "v" 0 0 FieldKey.name

/-- C8: connect always appends one new edge — it never rejects and never
deduplicates, so any connection (duplicates and self-loops included, since
source, target and the prior edge list are arbitrary here) increases the
edge count by exactly one. -/
theorem connect_always_appends (s : AppState) (a b : String) :
    (step s (Event.connect a b)).edges = s.edges ++ [{ source := a, target := b }] ∧
    (step s (Event.connect a b)).edges.length = s.edges.length + 1 := by
  constructor <;> simp [step, addEdge]

/-! Decimal rendering of naturals: the machinery needed to reason about the
ids produced by getId (Nat.repr is injective, and the decimal value of the
rendered string is the number itself). -/

/-- digitVal inverts Nat.digitChar on single digits. -/
theorem digitVal_digitChar : ∀ d : Nat, d < 10 → digitVal (Nat.digitChar d) = d := by
  decide

/-- Nat.toDigitsCore at base 10 with enough fuel produces decChars. -/
theorem toDigitsCore_eq_decChars :
    ∀ (fuel n : Nat) (ds : List Char), n < fuel →
      Nat.toDigitsCore 10 fuel n ds = decChars n ++ ds := by
  intro fuel
  induction fuel with
  | zero => intro n ds h; omega
  | succ f ih =>
    intro n ds h
    rw [Nat.toDigitsCore]
    by_cases h10 : n / 10 = 0
    · rw [if_pos h10]
      have hn : n < 10 := by omega
      rw [decChars, dif_pos hn, Nat.mod_eq_of_lt hn]
      rfl
    · rw [if_neg h10]
      have hlt : n / 10 < f := by omega
      rw [ih (n / 10) _ hlt]
      conv_rhs => rw [decChars]
      rw [dif_neg (by omega : ¬ n < 10), List.append_assoc]
      rfl

/-- Nat.toDigits at base 10 is decChars. -/
theorem toDigits_eq_decChars (n : Nat) : Nat.toDigits 10 n = decChars n := by
  rw [Nat.toDigits, toDigitsCore_eq_decChars (n + 1) n [] (Nat.lt_succ_self n), List.append_nil]

/-- decValue inverts decChars. -/
theorem decValue_decChars (n : Nat) : decValue (decChars n) = n := by
  induction n using Nat.strong_induction_on with
  | _ n ih =>
    rw [decChars]
    by_cases h : n < 10
    · rw [dif_pos h]
      simp [decValue, digitVal_digitChar n h]
    · rw [dif_neg h]
      have hrec := ih (n / 10) (by omega)
      unfold decValue at hrec ⊢
      rw [List.foldl_append, hrec]
      simp [digitVal_digitChar (n % 10) (by omega)]
      omega

/-- The list of characters of the decimal rendering of a natural. -/
theorem data_toString_nat (n : Nat) : (toString n).data = decChars n := by
  show (Nat.repr n).data = decChars n
  rw [Nat.repr, toDigits_eq_decChars]
  rfl

/-- Reading the rendered counter back as an integer gives the counter. -/
theorem specIntValue_toString (n : Nat) : specIntValue (toString n) = n := by
  rw [specIntValue, data_toString_nat, decValue_decChars]

/-- The decimal rendering of naturals is injective. -/
theorem toString_nat_injective (a b : Nat) (h : toString a = toString b) : a = b := by
  have hd := congrArg String.data h
  rw [data_toString_nat, data_toString_nat] at hd
  have := congrArg decValue hd
  rwa [decValue_decChars, decValue_decChars] at this

/-- Closed form of genIds. -/
theorem genIds_eq (c k : Nat) :
    genIds c k = (List.range k).map fun j => toString (c + j) := by
  induction k generalizing c with
  | zero => rfl
  | succ k ih =>
    rw [genIds, ih, List.range_succ_eq_map, List.map_cons, List.map_map]
    refine congrArg₂ _ (by simp [getId]) ?_
    apply List.map_congr_left
    intro j _
    have hh : c + 1 + j = c + (j + 1) := by omega
    simp [Function.comp, getId, hh]

/-- The seed state satisfies the freshness invariant (id 1 is below the
counter value 2). -/
theorem nodesOk_initial : NodesOk initialState :=
  ⟨by decide, by decide⟩

/-- updateNodeData keeps both components of the freshness invariant. -/
theorem nodesOk_updateNodeData (s : AppState) (x : Option String) (d : PartialData)
    (h : NodesOk s) :
    ((updateNodeData s.nodes x d).map Node.id).Pairwise (· ≠ ·) ∧
    ∀ n ∈ updateNodeData s.nodes x d, specIntValue n.id < s.counter := by
  obtain ⟨hpw, hlt⟩ := h
  constructor
  · rw [map_id_updateNodeData]; exact hpw
  · intro n hn
    unfold updateNodeData at hn
    obtain ⟨m, hm, heq⟩ := List.mem_map.mp hn
    have hid : n.id = m.id := by
      by_cases hx : some m.id = x
      · rw [← heq, if_pos hx]
      · rw [← heq, if_neg hx]
    rw [hid]
    exact hlt m hm

/-- Every event handler preserves the freshness invariant. -/
theorem step_preserves_nodesOk (s : AppState) (e : Event) (h : NodesOk s) :
    NodesOk (step s e) := by
  obtain ⟨hpw, hlt⟩ := h
  cases e with
  | nodeClick a => exact ⟨hpw, hlt⟩
  | paneClick => exact ⟨hpw, hlt⟩
  | connect a b => exact ⟨hpw, hlt⟩
  | drop p pos =>
    by_cases hp : p = ""
    · simp only [step, if_pos hp]; exact ⟨hpw, hlt⟩
    · simp only [step, if_neg hp]
      constructor
      · rw [List.map_append, List.pairwise_append]
        refine ⟨hpw, by simp, ?_⟩
        intro a ha b hb hab
        simp only [List.map_cons, List.map_nil, List.mem_singleton] at hb
        obtain ⟨n, hn, rfl⟩ := List.mem_map.mp ha
        have hlt' := hlt n hn
        rw [hab, hb] at hlt'
        rw [show ((getId s.counter).1 : String) = toString s.counter from rfl,
          specIntValue_toString] at hlt'
        omega
      · intro n hn
        rcases List.mem_append.mp hn with hn | hn
        · exact Nat.lt_trans (hlt n hn) (Nat.lt_succ_self _)
        · rw [List.mem_singleton.mp hn]
          rw [show specIntValue (getId s.counter).1 = s.counter from specIntValue_toString s.counter]
          exact Nat.lt_succ_self _
  | rename lbl => exact nodesOk_updateNodeData s s.selectedNodeId _ ⟨hpw, hlt⟩
  | addField =>
    rcases hsel : selectedNode s with _ | sel
    · simp only [step, hsel]; exact ⟨hpw, hlt⟩
    · simp only [step, hsel]; exact nodesOk_updateNodeData s s.selectedNodeId _ ⟨hpw, hlt⟩
  | updateField i k v =>
    rcases hsel : selectedNode s with _ | sel
    · simp only [step, hsel]; exact ⟨hpw, hlt⟩
    · simp only [step, hsel]; exact nodesOk_updateNodeData s s.selectedNodeId _ ⟨hpw, hlt⟩
  | removeField j =>
    rcases hsel : selectedNode s with _ | sel
    · simp only [step, hsel]; exact ⟨hpw, hlt⟩
    · simp only [step, hsel]; exact nodesOk_updateNodeData s s.selectedNodeId _ ⟨hpw, hlt⟩

/-- Any event sequence preserves the freshness invariant. -/
theorem run_nodesOk (es : List Event) : ∀ s, NodesOk s → NodesOk (run s es) := by
  induction es with
  | nil => intro s h; exact h
  | cons e es ih =>
    intro s h
    exact ih (step s e) (step_preserves_nodesOk s e h)

/-- C5: getId returns pairwise-distinct strings whose decimal values are the
strictly increasing sequence 2, 3, 4, …, and along every event sequence from
the initial state (seed node with id 1 plus any number of drops) the node
ids stay pairwise distinct. -/
theorem getId_ids_unique_increasing :
    (∀ k, (genIds 2 k).map specIntValue = (List.range k).map fun j => 2 + j) ∧
    (∀ k, (genIds 2 k).Pairwise fun a b => specIntValue a < specIntValue b) ∧
    (∀ k, (genIds 2 k).Pairwise (· ≠ ·)) ∧
    ∀ es, ((run initialState es).nodes.map Node.id).Pairwise (· ≠ ·) := by
  have hmap : ∀ k, (genIds 2 k).map specIntValue = (List.range k).map fun j => 2 + j := by
    intro k
    rw [genIds_eq, List.map_map]
    apply List.map_congr_left
    intro j _
    simp [Function.comp, specIntValue_toString]
  have hpw : ∀ k, (genIds 2 k).Pairwise fun a b => specIntValue a < specIntValue b := by
    intro k
    rw [genIds_eq, List.pairwise_map]
    have hr : (List.range k).Pairwise (· < ·) := List.sorted_lt_range k
    exact hr.imp fun hij => by
      rw [specIntValue_toString, specIntValue_toString]
      omega
  have hne : ∀ k, (genIds 2 k).Pairwise (· ≠ ·) := by
    intro k
    exact (hpw k).imp fun hab => by
      intro he
      rw [he] at hab
      exact lt_irrefl _ hab
  refine ⟨hmap, hpw, hne, ?_⟩
  intro es
  exact (run_nodesOk es initialState nodesOk_initial).1

/-- C9: the id and the kind of every node, in order, are unchanged by any
updateNodeData, Rename, AddField, UpdateField or RemoveField call, whatever
node (if any) the call targets. -/
theorem identity_kind_immutable (s : AppState) (x : Option String) (d : PartialData)
    (lbl v : String) (i j : Nat) (k : FieldKey) :
    idKindProj (updateNodeData s.nodes x d) = idKindProj s.nodes ∧
    idKindProj (step s (Event.rename lbl)).nodes = idKindProj s.nodes ∧
    idKindProj (step s Event.addField).nodes = idKindProj s.nodes ∧
    idKindProj (step s (Event.updateField i k v)).nodes = idKindProj s.nodes ∧
    idKindProj (step s (Event.removeField j)).nodes = idKindProj s.nodes := by
  refine ⟨idKindProj_updateNodeData _ _ _, idKindProj_updateNodeData _ _ _, ?_, ?_, ?_⟩ <;>
    rcases hsel : selectedNode s with _ | sel <;>
      simp [step, hsel, idKindProj_updateNodeData]

/-! Lemmas about field arrays and the selected node, for the field-level
operations. -/

/-- Spreading an array with no holes copies it verbatim. -/
theorem spreadArr_no_hole (l : List Slot) (h : Slot.hole ∉ l) : spreadArr l = l := by
  induction l with
  | nil => rfl
  | cons s rest ih =>
    have hs : s ≠ Slot.hole := by
      intro he
      exact h (by rw [he]; exact List.mem_cons_self _ _)
    have hrest : Slot.hole ∉ rest := fun hm => h (List.mem_cons_of_mem _ hm)
    unfold spreadArr at ih ⊢
    rw [List.map_cons, ih hrest]
    congr 1
    cases s with
    | obj f => rfl
    | undef => rfl
    | hole => exact absurd rfl hs

/-- On a hole-free array, the indexed filter of onRemoveField deletes the
element at the index (relative to the running position). -/
theorem filterIdxGo_no_hole (idx : Nat) (l : List Slot) (h : Slot.hole ∉ l) :
    ∀ pos, filterIdxGo idx l pos = if idx < pos then l else l.eraseIdx (idx - pos) := by
  induction l with
  | nil =>
    intro pos
    rw [filterIdxGo]
    split <;> simp
  | cons s rest ih =>
    intro pos
    have hs : s ≠ Slot.hole := by
      intro he
      exact h (by rw [he]; exact List.mem_cons_self _ _)
    have hrest : Slot.hole ∉ rest := fun hm => h (List.mem_cons_of_mem _ hm)
    rw [filterIdxGo]
    by_cases hpi : pos = idx
    · subst hpi
      rw [if_neg (by simp), ih hrest (pos + 1), if_pos (by omega),
        if_neg (by omega), Nat.sub_self]
      rfl
    · rw [if_pos ⟨hs, hpi⟩, ih hrest (pos + 1)]
      by_cases hlt : idx < pos
      · rw [if_pos (by omega), if_pos hlt]
      · rw [if_neg (by omega), if_neg hlt]
        have harith : idx - pos = (idx - (pos + 1)) + 1 := by omega
        rw [harith]
        rfl

/-- On a hole-free array, onRemoveField's filter is exactly eraseIdx. -/
theorem removeFieldFilter_eq_eraseIdx (l : List Slot) (idx : Nat) (h : Slot.hole ∉ l) :
    removeFieldFilter l idx = l.eraseIdx idx := by
  rw [removeFieldFilter, filterIdxGo_no_hole idx l h 0, if_neg (by omega), Nat.sub_zero]

/-- updateNodeData unfolded one node at a time. -/
theorem updateNodeData_cons (a : Node) (l : List Node) (x : Option String) (d : PartialData) :
    updateNodeData (a :: l) x d =
      (if some a.id = x then { a with data := mergeData a.data d } else a) :: updateNodeData l x d :=
  rfl

/-- The first node matching an id, after updateNodeData against that same
id filter, is the merged version of the first match before the call. -/
theorem find?_updateNodeData (nds : List Node) (sid : Option String) (d : PartialData) (sel : Node)
    (h : nds.find? (fun n => some n.id = sid) = some sel) :
    (updateNodeData nds sid d).find? (fun n => some n.id = sid) =
      some { sel with data := mergeData sel.data d } := by
  induction nds with
  | nil => simp at h
  | cons a l ih =>
    rw [updateNodeData_cons]
    by_cases hpa : some a.id = sid
    · rw [List.find?_cons_of_pos _ (by simpa using hpa)] at h
      injection h with h
      subst h
      rw [if_pos hpa]
      exact List.find?_cons_of_pos _ (by simpa using hpa)
    · rw [List.find?_cons_of_neg _ (by simpa using hpa)] at h
      rw [if_neg hpa, List.find?_cons_of_neg _ (by simpa using hpa)]
      exact ih h

/-- Updating the store through updateNodeData with the current selection id
turns the selected node into its merged version. -/
theorem selectedNode_step_update (s : AppState) (d : PartialData) (sel : Node)
    (h : selectedNode s = some sel) :
    selectedNode { s with nodes := updateNodeData s.nodes s.selectedNodeId d } =
      some { sel with data := mergeData sel.data d } :=
  find?_updateNodeData s.nodes s.selectedNodeId d sel h

/-- C6: with a selected node whose field sequence (a sequence of field
objects, hence hole-free) has length n, RemoveField at i < n leaves the
selected node with the original sequence minus the element at index i:
length n - 1, elements before i in place, elements after i shifted down by
one position. -/
theorem removeField_deletes_index (s : AppState) (sel : Node) (i : Nat)
    (hsel : selectedNode s = some sel) (hh : Slot.hole ∉ sel.data.fields)
    (hi : i < sel.data.fields.length) :
    selectedNode (step s (Event.removeField i)) =
      some { sel with data := { label := sel.data.label
                                fields := sel.data.fields.eraseIdx i } } ∧
    (sel.data.fields.eraseIdx i).length = sel.data.fields.length - 1 ∧
    (∀ j, j < i → (sel.data.fields.eraseIdx i)[j]? = sel.data.fields[j]?) ∧
    (∀ j, i ≤ j → (sel.data.fields.eraseIdx i)[j]? = sel.data.fields[j + 1]?) := by
  refine ⟨?_, ?_, ?_, ?_⟩
  · simp only [step, hsel]
    rw [removeFieldFilter_eq_eraseIdx _ _ hh]
    exact selectedNode_step_update s _ sel hsel
  · rw [List.length_eraseIdx, if_pos hi]
  · intro j hj
    exact List.getElem?_eraseIdx_of_lt _ _ _ hj
  · intro j hj
    exact List.getElem?_eraseIdx_of_ge _ _ _ hj

/-- Witness for C6: removing index 0 of the selected single-field node. -/
theorem removeField_deletes_index_witness :
    selectedNode (step wStateSel (Event.removeField 0)) =
      some { wNodeB with data := { label := "B", fields := [] } } := by
  have h := removeField_deletes_index wStateSel wNodeB 0 (by decide) (by decide) (by decide)
  exact h.1.trans (by decide)

/-- AddField on a hole-free selection appends the default field. -/
theorem addField_single (s : AppState) (sel : Node)
    (hsel : selectedNode s = some sel) (hh : Slot.hole ∉ sel.data.fields) :
    selectedNode (step s Event.addField) =
      some { sel with data := { label := sel.data.label
                                fields := sel.data.fields ++ [Slot.obj newPropField] } } := by
  simp only [step, hsel]
  rw [spreadArr_no_hole _ hh]
  exact selectedNode_step_update s _ sel hsel

/-- C7: AddField appends exactly { type: String, name: newProp } at the end
of the selected node's field sequence, leaving the existing fields and their
order unchanged, and a second AddField appends the same default again, so
repeated calls stack duplicate default names with no uniquification. -/
theorem addField_appends_default (s : AppState) (sel : Node)
    (hsel : selectedNode s = some sel) (hh : Slot.hole ∉ sel.data.fields) :
    selectedNode (step s Event.addField) =
      some { sel with data := { label := sel.data.label
                                fields := sel.data.fields ++ [Slot.obj newPropField] } } ∧
    selectedNode (step (step s Event.addField) Event.addField) =
      some { sel with data := { label := sel.data.label
                                fields := sel.data.fields ++
                                  [Slot.obj newPropField, Slot.obj newPropField] } } := by
  have h1 := addField_single s sel hsel hh
  have hh1 : Slot.hole ∉ sel.data.fields ++ [Slot.obj newPropField] := by
    intro hm
    rcases List.mem_append.mp hm with hm | hm
    · exact hh hm
    · simp at hm
  have h2 := addField_single (step s Event.addField) _ h1 hh1
  refine ⟨h1, ?_⟩
  rw [h2]
  simp

/-- Witness for C7: two AddField calls on the selected single-field node. -/
theorem addField_appends_default_witness :
    selectedNode (step wStateSel Event.addField) = some wNodeBAdd1 ∧
    selectedNode (step (step wStateSel Event.addField) Event.addField) = some wNodeBAdd2 := by
  have h := addField_appends_default wStateSel wNodeB (by decide) (by decide)
  exact ⟨h.1.trans (by decide), h.2.trans (by decide)⟩

/-- C10: UpdateField with an index at or past the current length does not
leave the store unchanged: the selected node's field array grows to length
i + 1, with slot i holding an object whose only attribute is the updated
key (spread of undefined, then one key set) — not a no-op and not an
error. -/
theorem updateField_oob_grows (s : AppState) (sel : Node) (i : Nat) (k : FieldKey) (v : String)
    (hsel : selectedNode s = some sel) (hi : sel.data.fields.length ≤ i) :
    (∃ nf : List Slot,
      selectedNode (step s (Event.updateField i k v)) =
        some { sel with data := { label := sel.data.label, fields := nf } } ∧
      nf.length = i + 1 ∧
      nf[i]? = some (Slot.obj (setKey emptyField k v))) ∧
    (step s (Event.updateField i k v)).nodes ≠ s.nodes := by
  have hlen : (spreadArr sel.data.fields).length = sel.data.fields.length := by
    simp [spreadArr]
  have hget : jsGet (spreadArr sel.data.fields) i = Slot.undef := by
    unfold jsGet
    rw [List.getD_eq_getElem?_getD, List.getElem?_eq_none (by omega), Option.getD_none]
  have hset : jsSet (spreadArr sel.data.fields) i
        (Slot.obj (setKey (slotSpread (jsGet (spreadArr sel.data.fields) i)) k v)) =
      (spreadArr sel.data.fields ++
        List.replicate (i - (spreadArr sel.data.fields).length) Slot.hole) ++
        [Slot.obj (setKey emptyField k v)] := by
    rw [hget, jsSet, if_neg (by omega)]
    rfl
  have hmid : ((spreadArr sel.data.fields ++
      List.replicate (i - (spreadArr sel.data.fields).length) Slot.hole)).length = i := by
    simp [hlen]
    omega
  have hstep : step s (Event.updateField i k v) =
      { s with nodes := (updateNodeData s.nodes s.selectedNodeId
          { label? := none,
            fields? := some (jsSet (spreadArr sel.data.fields) i
              (Slot.obj (setKey (slotSpread (jsGet (spreadArr sel.data.fields) i)) k v))) }) } := by
    simp only [step, hsel]
  have hsel' := selectedNode_step_update s
    { label? := none,
      fields? := some (jsSet (spreadArr sel.data.fields) i
        (Slot.obj (setKey (slotSpread (jsGet (spreadArr sel.data.fields) i)) k v))) } sel hsel
  constructor
  · refine ⟨jsSet (spreadArr sel.data.fields) i
        (Slot.obj (setKey (slotSpread (jsGet (spreadArr sel.data.fields) i)) k v)), ?_, ?_, ?_⟩
    · rw [hstep]
      exact hsel'
    · rw [hset]
      simp [hlen]
      omega
    · rw [hset, List.getElem?_append_right hmid.le, hmid, Nat.sub_self]
      rfl
  · intro heq
    have hsame : selectedNode (step s (Event.updateField i k v)) = selectedNode s := by
      rw [hstep] at heq ⊢
      unfold selectedNode
      exact congrArg (List.find? _) heq
    rw [hstep] at hsame
    rw [hsel', hsel] at hsame
    injection hsame with hsame
    have hfl := congrArg (fun n => n.data.fields.length) hsame
    simp only [mergeData, Option.getD_some] at hfl
    rw [hset, List.length_append, hmid, List.length_singleton] at hfl
    omega

/-- Witness for C10: updating index 5 of the selected single-field node. -/
theorem updateField_oob_grows_witness :
    (selectedNode (step wStateSel (Event.updateField 5 FieldKey.name "x"))).map
        (fun n => n.data.fields.length) = some 6 ∧
    (step wStateSel (Event.updateField 5 FieldKey.name "x")).nodes ≠ wStateSel.nodes := by
  have h := updateField_oob_grows wStateSel wNodeB 5 FieldKey.name "x" (by decide) (by decide)
  obtain ⟨⟨nf, h1, h2, h3⟩, h4⟩ := h
  refine ⟨?_, h4⟩
  rw [h1]
  simp [h2]

end Concerto
